import Mathlib

/-!
Verification of the claude-gomod module-proxy server core.

This file shallowly embeds the Go source of the repository: the proxy
client (`proxy.go`: `get`, `encodePath`, the endpoint wrappers), the
in-memory zip cache (`cache.go`: `ZipCache`, `ZipEntry`), the local
module-cache reader (`modcache.go`: `ModCache`), the local-directory
fallback (`local.go`: `LocalReader.Suggest`) and the tool handlers
(`tools.go`).

Modelling conventions:
  - Go byte strings (`[]byte`, and `string` where its byte content
    matters) are `Bytes := List Nat`; Lean `String` is used for values
    the Go code treats as text identifiers (module paths, versions,
    URLs, file names).  `lit` embeds an ASCII Lean string literal as its
    byte sequence; `bytesToStr` is its inverse on bytes.
  - External effects are oracles passed as arguments: the HTTP layer is
    a function `String -> HttpOutcome` from URL to response, the
    filesystem is an `FS` record and zip container parsing
    (`archive/zip.NewReader`) is a function
    `Bytes -> Option (List ZipRec)`.
  - Handlers are instrumented: they additionally return the list of
    network requests and in-memory-cache accesses they perform, so that
    "never touches the network / the cache" claims are statable.
  - Go error values are the inductive `GoErr`; `fmt.Errorf` with `%w`
    is the `wrapped` constructor and `errors.Is(err, ErrModuleNotFound)`
    is `isNotFoundErr` (unwrap-chain search for the sentinel).
-/

namespace GoMod

/-- Go byte strings: a list of byte values. -/
abbrev Bytes := List Nat

/-- Embed an ASCII Lean string literal as its Go byte sequence. -/
def lit (s : String) : Bytes := s.data.map Char.toNat

/-- Inverse embedding of a Go byte string into a Lean string
(byte-per-character; faithful on ASCII data). -/
def bytesToStr (bs : Bytes) : String := ⟨bs.map Char.ofNat⟩

/-- Go error values, by kind.  `wrapped` models `fmt.Errorf("ctx: %w", e)`. -/
inductive GoErr where
  | modNotFound
  | unexpectedStatus (status : Nat) (url : String)
  | tooLarge
  | fetchFailed (url : String)
  | parseLatest
  | zipFormat
  | notFoundInArchive (path : String)
  | binaryFile (path : String)
  | osRead (path : String)
  | walkFail (msg : String)
  | wrapped (ctx : String) (e : GoErr)
deriving DecidableEq

/-- Model of `errors.Is(err, ErrModuleNotFound)`: the sentinel is found
somewhere along the `%w` unwrap chain. -/
def isNotFoundErr : GoErr → Bool
  | .modNotFound => true
  | .wrapped _ e => isNotFoundErr e
  | _ => false

/-- Whether a byte is a UTF-8 continuation byte (`0x80..0xBF`). -/
def isCont (b : Nat) : Bool := 128 ≤ b && b ≤ 191

/-- Model of Go `unicode/utf8.Valid`: shortest-form UTF-8, surrogates
excluded, code points at most `U+10FFFF`. -/
def utf8Valid : Bytes → Bool
  | [] => true
  | b :: rest =>
    if b ≤ 127 then utf8Valid rest
    else if b < 194 then false
    else if b ≤ 223 then
      match rest with
      | b1 :: rest1 => isCont b1 && utf8Valid rest1
      | [] => false
    else if b ≤ 239 then
      match rest with
      | b1 :: b2 :: rest2 =>
        (if b = 224 then 160 ≤ b1 && b1 ≤ 191
         else if b = 237 then 128 ≤ b1 && b1 ≤ 159
         else isCont b1) && (isCont b2 && utf8Valid rest2)
      | _ => false
    else if b ≤ 244 then
      match rest with
      | b1 :: b2 :: b3 :: rest3 =>
        (if b = 240 then 144 ≤ b1 && b1 ≤ 191
         else if b = 244 then 128 ≤ b1 && b1 ≤ 143
         else isCont b1) && (isCont b2 && (isCont b3 && utf8Valid rest3))
      | _ => false
    else false

/-- `maxZipSize = 100 << 20` from `proxy.go`. -/
def maxZipSize : Nat := 100 <<< 20

/-- Outcome of one HTTP round trip, as seen by `ProxyClient.get`:
either a response with a status code and a fully readable body, or a
transport-level failure of `client.Do`. -/
inductive HttpOutcome where
  | resp (status : Nat) (body : Bytes)
  | transportErr
deriving DecidableEq

/-- Model of `ProxyClient.get`: classify the status (404/410 are the
`ErrModuleNotFound` sentinel, any other non-200 a generic status error),
then read at most `maxZipSize+1` bytes of the body and reject bodies
longer than `maxZipSize` as too large. -/
def get (url : String) (o : HttpOutcome) : Except GoErr Bytes :=
  match o with
  | .transportErr => .error (.fetchFailed url)
  | .resp status body =>
    if status = 404 ∨ status = 410 then .error .modNotFound
    else if status ≠ 200 then .error (.unexpectedStatus status url)
    else
      let b := body.take (maxZipSize + 1)
      if b.length > maxZipSize then .error .tooLarge
      else .ok b

/-- Lower-casing of an upper-case ASCII letter, `r + ('a' - 'A')`. -/
def lowerChar (r : Char) : Char := Char.ofNat (r.toNat + 32)

/-- Model of `encodePath` from `proxy.go`: scan runes left to right,
replacing each `A..Z` by `!` followed by its lower-case form. -/
def encodePath (path : String) : String :=
  path.data.foldl
    (fun b r =>
      if 'A' ≤ r ∧ r ≤ 'Z' then (b.push '!').push (lowerChar r)
      else b.push r)
    ""

/-- Model of `strings.HasPrefix`. -/
def hasPrefB (s p : String) : Bool := p.data.isPrefixOf s.data

/-- Model of `strings.HasSuffix`. -/
def hasSuffB (s p : String) : Bool := p.data.isSuffixOf s.data

/-- Model of `strings.TrimPrefix`. -/
def trimPrefB (s p : String) : String :=
  if hasPrefB s p then ⟨s.data.drop p.data.length⟩ else s

/-- Model of `strings.EqualFold` (case folding; the program only folds
against the ASCII literal `"latest"`). -/
def goEqualFold (a b : String) : Bool :=
  a.data.map Char.toLower == b.data.map Char.toLower

/-- One record of a parsed zip container: the entry's full name inside
the container and its decompressed byte content (the abstraction of a
`zip.File`, with `Open`/read access folded into `content`). -/
structure ZipRec where
  name : String
  content : Bytes
deriving DecidableEq

/-- Association-list lookup, modelling a Go `map[string]V` read. -/
def alookup (k : String) : List (String × α) → Option α
  | [] => none
  | (k1, v) :: rest => if k = k1 then some v else alookup k rest

/-- Association-list insert with replacement, modelling a Go
`map[string]V` write (`m[k] = v`): last write wins, keys stay unique. -/
def ainsert (k : String) (v : α) : List (String × α) → List (String × α)
  | [] => [(k, v)]
  | (k1, v1) :: rest =>
    if k = k1 then (k, v) :: rest else (k1, v1) :: ainsert k v rest

/-- Model of `ZipEntry` from `cache.go`: the pre-built lookup map from
stripped path to file record. -/
structure ZipEntry where
  files : List (String × ZipRec)
deriving DecidableEq

/-- Model of `ZipEntry.ListFiles`: every key of the file map matching
the optional prefix filter. -/
def ZipEntry.listFiles (e : ZipEntry) (p : String) : List String :=
  (e.files.map Prod.fst).filter fun name => p = "" || hasPrefB name p

/-- Model of `ZipEntry.ReadFile`: index lookup, then the binary gate on
the record's content (`utf8.Valid`). -/
def ZipEntry.readFile (e : ZipEntry) (path : String) : Except GoErr Bytes :=
  match alookup path e.files with
  | none => .error (.notFoundInArchive path)
  | some f =>
    if utf8Valid f.content then .ok f.content
    else .error (.binaryFile path)

/-- Model of `ZipCache` from `cache.go`: the table from
`module + "@" + version` to its parsed entry. -/
structure ZipCache where
  entries : List (String × ZipEntry)
deriving DecidableEq

/-- Model of `NewZipCache`: the empty table. -/
def ZipCache.empty : ZipCache := ⟨[]⟩

/-- Model of `ZipCache.Get`: table lookup, `none` when not cached. -/
def ZipCache.get (c : ZipCache) (module version : String) : Option ZipEntry :=
  alookup (module ++ "@" ++ version) c.entries

/-- One iteration of the `Put` indexing loop: strip the wrapper prefix
from the record's name, skip records that become empty or still end in
a path separator (pure directory markers), insert the rest keyed by the
stripped name. -/
def putStep (pfx : String) (acc : List (String × ZipRec)) (f : ZipRec) :
    List (String × ZipRec) :=
  let name := trimPrefB f.name pfx
  if name = "" || hasSuffB name "/" then acc
  else ainsert name f acc

/-- Model of `ZipCache.Put`.  `parse` abstracts `zip.NewReader` over the
raw bytes: `none` on a malformed container, otherwise the container's
records in order.  On success the `module@version/` prefix is stripped
from each record name, empty names and directory markers are skipped,
and the resulting entry is both stored and returned; on parse failure
the table is returned unchanged alongside the error. -/
def ZipCache.put (parse : Bytes → Option (List ZipRec)) (c : ZipCache)
    (module version : String) (data : Bytes) : Except GoErr ZipEntry × ZipCache :=
  match parse data with
  | none => (.error (.wrapped "parse zip" .zipFormat), c)
  | some recs =>
    let pfx := module ++ "@" ++ version ++ "/"
    let files := recs.foldl (putStep pfx) []
    let entry : ZipEntry := ⟨files⟩
    (.ok entry, ⟨ainsert (module ++ "@" ++ version) entry c.entries⟩)

/-- Abstract filesystem oracle for `modcache.go` and `local.go`:
`isDir` is `os.Stat` plus `IsDir`, `readFile` is `os.ReadFile` (`none`
on failure), and `walk` abstracts `filepath.Walk` over a module root,
yielding the slash-normalized relative paths of all regular files (or
the walk's failure). -/
structure FS where
  isDir : String → Bool
  readFile : String → Option Bytes
  walk : String → Except GoErr (List String)

/-- Model of `ModCache` from `modcache.go`: the `$GOMODCACHE` root. -/
structure ModCache where
  dir : String

/-- Model of `ModCache.ModDir` (`filepath.Join` rendered as `/`). -/
def ModCache.modDir (m : ModCache) (module version : String) : String :=
  m.dir ++ "/" ++ encodePath module ++ "@" ++ version

/-- Model of `ModCache.HasModule`: absent when the root is empty,
otherwise a directory check on the module directory. -/
def ModCache.hasModule (m : ModCache) (fs : FS) (module version : String) : Bool :=
  if m.dir = "" then false
  else fs.isDir (m.modDir module version)

/-- Model of `ModCache.ListFiles`: walk the module directory and keep
the relative paths matching the optional prefix filter. -/
def ModCache.listFiles (m : ModCache) (fs : FS)
    (module version p : String) : Except GoErr (List String) :=
  match fs.walk (m.modDir module version) with
  | .error e => .error (.wrapped "walk module cache dir" e)
  | .ok rels => .ok (rels.filter fun rel => p = "" || hasPrefB rel p)

/-- Model of `ModCache.ReadFile`: read the file under the module
directory, then the identical binary gate (`utf8.Valid`) as the archive
path. -/
def ModCache.readFile (m : ModCache) (fs : FS)
    (module version path : String) : Except GoErr Bytes :=
  match fs.readFile (m.modDir module version ++ "/" ++ path) with
  | none => .error (.wrapped "read file from mod cache" (.osRead path))
  | some data =>
    if utf8Valid data then .ok data
    else .error (.binaryFile path)

/-- Model of `lastPathSegment` from `local.go`; `afterLastSlash` is the
list form of "substring after the last `/`". -/
def afterLastSlash : List Char → List Char
  | [] => []
  | c :: cs =>
    if '/' ∈ cs then afterLastSlash cs
    else if c = '/' then cs
    else c :: cs

/-- Model of `lastPathSegment`: final path component of a module path. -/
def lastPathSegment (module : String) : String := ⟨afterLastSlash module.data⟩

/-- The fixed-template suggestion text of `LocalReader.Suggest`. -/
def suggestBody (localBase module : String) : String :=
  "Module \"" ++ module ++
    "\" is not available on the Go module proxy, but a local directory exists at " ++
    (localBase ++ "/" ++ lastPathSegment module) ++
    " that may contain its source. You can use your file tools to browse it."

/-- Model of `LocalReader.Suggest`: a suggestion when a directory named
by the module's last path segment exists under the configured base
directory, the empty string otherwise.  `isDirF` abstracts `os.Stat`
plus `IsDir`. -/
def suggest (isDirF : String → Bool) (localBase module : String) : String :=
  if isDirF (localBase ++ "/" ++ lastPathSegment module) then
    suggestBody localBase module
  else ""

/-- Observable effects of one handler call: a network request to a URL,
or a read/write access to the in-memory `ZipCache` table. -/
inductive Ev where
  | net (url : String)
  | zcGet (key : String)
  | zcPut (key : String)
deriving DecidableEq

/-- URL of the `/@v/list` endpoint. -/
def listURL (base module : String) : String :=
  base ++ "/" ++ encodePath module ++ "/@v/list"

/-- URL of the `/@latest` endpoint. -/
def latestURL (base module : String) : String :=
  base ++ "/" ++ encodePath module ++ "/@latest"

/-- URL of the `/@v/<version>.mod` endpoint. -/
def modURL (base module version : String) : String :=
  base ++ "/" ++ encodePath module ++ "/@v/" ++ version ++ ".mod"

/-- URL of the `/@v/<version>.zip` endpoint. -/
def zipURL (base module version : String) : String :=
  base ++ "/" ++ encodePath module ++ "/@v/" ++ version ++ ".zip"

/-- ASCII whitespace recognized by the `strings.TrimSpace` model. -/
def asciiSpace (b : Nat) : Bool :=
  b = 32 || b = 9 || b = 10 || b = 13 || b = 11 || b = 12

/-- Model of `strings.TrimSpace` on byte content. -/
def trimSpaceB (bs : Bytes) : Bytes :=
  ((bs.dropWhile asciiSpace).reverse.dropWhile asciiSpace).reverse

/-- Version-list body parsing of `ProxyClient.ListVersions`: trim the
body, split on newlines, keep the trimmed non-empty lines in order. -/
def parseVersions (body : Bytes) : List Bytes :=
  ((trimSpaceB body).splitOn 10).filterMap fun line =>
    let l := trimSpaceB line
    if l = [] then none else some l

/-- Model of `strings.Index` (first index of `needle` in `hay`). -/
def goIndex : Bytes → Bytes → Option Nat
  | hay, needle =>
    match hay with
    | [] => if needle = [] then some 0 else none
    | h :: rest =>
      if needle.isPrefixOf (h :: rest) then some 0
      else (goIndex rest needle).map (· + 1)

/-- Version extraction of `ProxyClient.ResolveLatest`: scan for the
literal `"Version":"` and read up to the next quote. -/
def extractVersion (s : Bytes) : Except GoErr Bytes :=
  let key := lit "\"Version\":\""
  match goIndex s key with
  | none => .error .parseLatest
  | some i =>
    let s1 := s.drop (i + key.length)
    match goIndex s1 (lit "\"") with
    | none => .error .parseLatest
    | some j => .ok (s1.take j)

/-- Model of `resolveVersion` from `tools.go`: the `"latest"` alias is
resolved through `ProxyClient.ResolveLatest` (one network request,
failures wrapped with the stage marker); any other version is returned
as-is with no effects. -/
def resolveVersion (http : String → HttpOutcome) (base module version : String) :
    Except GoErr String × List Ev :=
  if goEqualFold version "latest" then
    let url := latestURL base module
    match get url (http url) with
    | .error e => (.error (.wrapped "resolve latest version" e), [.net url])
    | .ok body =>
      match extractVersion body with
      | .error e => (.error (.wrapped "resolve latest version" e), [.net url])
      | .ok vb => (.ok (bytesToStr vb), [.net url])
  else (.ok version, [])

/-- Model of `getOrDownload` from `tools.go`: consult the in-memory
cache, else download the archive and `Put` it, wrapping either failure
with its stage marker. -/
def getOrDownload (http : String → HttpOutcome) (base : String)
    (parse : Bytes → Option (List ZipRec)) (zc : ZipCache)
    (module version : String) : Except GoErr ZipEntry × List Ev × ZipCache :=
  let key := module ++ "@" ++ version
  match ZipCache.get zc module version with
  | some entry => (.ok entry, [.zcGet key], zc)
  | none =>
    let url := zipURL base module version
    match get url (http url) with
    | .error e => (.error (.wrapped "download zip" e), [.zcGet key, .net url], zc)
    | .ok data =>
      match ZipCache.put parse zc module version data with
      | (.error e, zc1) => (.error (.wrapped "cache zip" e), [.zcGet key, .net url], zc1)
      | (.ok entry, zc1) => (.ok entry, [.zcGet key, .net url, .zcPut key], zc1)

/-- Model of `mcp.CallToolResult` as the handlers build it: one text
content block and the error flag. -/
structure CallToolResult where
  text : Bytes
  isError : Bool
deriving DecidableEq

/-- Model of `textResult`. -/
def textResult (t : Bytes) : CallToolResult := ⟨t, false⟩

/-- Model of `errorResult`. -/
def errorResult (t : Bytes) : CallToolResult := ⟨t, true⟩

/-- Model of `notFoundResult`: the fallback suggestion when the local
reader offers one, an explicit error result otherwise. -/
def notFoundResult (isDirF : String → Bool) (localBase module : String) :
    CallToolResult :=
  let s := suggest isDirF localBase module
  if s ≠ "" then textResult (lit s)
  else errorResult (lit ("Module \"" ++ module ++ "\" not found on the Go module proxy."))

instance {ε α : Type} [DecidableEq ε] [DecidableEq α] : DecidableEq (Except ε α) :=
  fun a b =>
    match a, b with
    | .ok x, .ok y =>
      if h : x = y then .isTrue (congrArg Except.ok h)
      else .isFalse fun hh => h (Except.ok.inj hh)
    | .error x, .error y =>
      if h : x = y then .isTrue (congrArg Except.error h)
      else .isFalse fun hh => h (Except.error.inj hh)
    | .ok _, .error _ => .isFalse fun hh => Except.noConfusion hh
    | .error _, .ok _ => .isFalse fun hh => Except.noConfusion hh

/-- A handler's observable outcome: the Go `(*CallToolResult, error)`
pair collapsed to an `Except`, plus the effect trace. -/
structure ToolOut where
  result : Except GoErr CallToolResult
  events : List Ev
deriving DecidableEq

/-- A handler outcome that also carries the post-call cache table. -/
structure ToolOutC where
  result : Except GoErr CallToolResult
  events : List Ev
  cache : ZipCache
deriving DecidableEq

/-- Output text of `handleListVersions` (`latest = []` renders the Go
empty string, omitting the `Latest info` block). -/
def listVersionsBody (module : String) (versions : List Bytes) (latest : Bytes) :
    Bytes :=
  lit "Versions of " ++ lit module ++ lit ":\n"
    ++ versions.flatMap (fun v0 => v0 ++ [10])
    ++ (if latest = [] then [] else lit "\nLatest info:\n" ++ latest)

/-- Model of `handleListVersions`: fetch the version list (substituting
the fallback result on the not-found sentinel), then fetch the latest
metadata with its error discarded (`latest, _ := proxy.Latest(...)`,
which yields the empty string on failure). -/
def handleListVersions (http : String → HttpOutcome) (base : String)
    (isDirF : String → Bool) (localBase module : String) : ToolOut :=
  let url := listURL base module
  match get url (http url) with
  | .error e =>
    if isNotFoundErr e then ⟨.ok (notFoundResult isDirF localBase module), [.net url]⟩
    else ⟨.error e, [.net url]⟩
  | .ok body =>
    let versions := parseVersions body
    let urlL := latestURL base module
    let latest := match get urlL (http urlL) with
      | .ok b => b
      | .error _ => []
    ⟨.ok (textResult (listVersionsBody module versions latest)), [.net url, .net urlL]⟩

/-- Model of `handleReadMod`: resolve the version, serve `go.mod` from
the local module cache when present and readable, otherwise fall back
to `ProxyClient.ReadMod` over the network. -/
def handleReadMod (http : String → HttpOutcome) (base : String)
    (fs : FS) (mc : ModCache) (module version : String) : ToolOut :=
  match resolveVersion http base module version with
  | (.error e, t) => ⟨.error e, t⟩
  | (.ok v, t) =>
    let net : ToolOut :=
      let url := modURL base module v
      match get url (http url) with
      | .error e => ⟨.error e, t ++ [.net url]⟩
      | .ok body => ⟨.ok (textResult body), t ++ [.net url]⟩
    if ModCache.hasModule mc fs module v then
      match ModCache.readFile mc fs module v "go.mod" with
      | .ok content => ⟨.ok (textResult content), t⟩
      | .error _ => net
    else net

/-- Output text of `handleListFiles`. -/
def listFilesBody (module version p : String) (files : List String) : Bytes :=
  lit "Files in " ++ lit module ++ lit "@" ++ lit version
    ++ (if p = "" then [] else lit " (prefix: " ++ lit p ++ lit ")")
    ++ lit " (" ++ lit (toString files.length) ++ lit " files):\n"
    ++ files.flatMap (fun f => lit f ++ [10])

/-- Insertion step for the `sort.Strings` model. -/
def insertSorted (x : String) : List String → List String
  | [] => [x]
  | y :: ys => if x < y || x == y then x :: y :: ys else y :: insertSorted x ys

/-- Model of `sort.Strings`: strings in nondecreasing order (the order
is unique, so the algorithm is irrelevant). -/
def sortStrings (l : List String) : List String := l.foldr insertSorted []

/-- Model of `handleListFiles`: resolve the version, serve the listing
from the local module cache when present, otherwise from the in-memory
cache populated by at most one download. -/
def handleListFiles (http : String → HttpOutcome) (base : String)
    (parse : Bytes → Option (List ZipRec)) (fs : FS) (mc : ModCache)
    (zc : ZipCache) (module version p : String) : ToolOutC :=
  match resolveVersion http base module version with
  | (.error e, t) => ⟨.error e, t, zc⟩
  | (.ok v, t) =>
    if ModCache.hasModule mc fs module v then
      match ModCache.listFiles mc fs module v p with
      | .error e => ⟨.error e, t, zc⟩
      | .ok files =>
        ⟨.ok (textResult (listFilesBody module v p (sortStrings files))), t, zc⟩
    else
      match getOrDownload http base parse zc module v with
      | (.error e, t1, zc1) => ⟨.error e, t ++ t1, zc1⟩
      | (.ok entry, t1, zc1) =>
        ⟨.ok (textResult (listFilesBody module v p (sortStrings (entry.listFiles p)))),
          t ++ t1, zc1⟩

/-- Model of `handleReadFile`: resolve the version, serve the file from
the local module cache when present (errors propagate, no network
fallback), otherwise from the archive entry. -/
def handleReadFile (http : String → HttpOutcome) (base : String)
    (parse : Bytes → Option (List ZipRec)) (fs : FS) (mc : ModCache)
    (zc : ZipCache) (module version path : String) : ToolOutC :=
  match resolveVersion http base module version with
  | (.error e, t) => ⟨.error e, t, zc⟩
  | (.ok v, t) =>
    if ModCache.hasModule mc fs module v then
      match ModCache.readFile mc fs module v path with
      | .error e => ⟨.error e, t, zc⟩
      | .ok content => ⟨.ok (textResult content), t, zc⟩
    else
      match getOrDownload http base parse zc module v with
      | (.error e, t1, zc1) => ⟨.error e, t ++ t1, zc1⟩
      | (.ok entry, t1, zc1) =>
        match ZipEntry.readFile entry path with
        | .error e => ⟨.error e, t ++ t1, zc1⟩
        | .ok content => ⟨.ok (textResult content), t ++ t1, zc1⟩

/-! Specification-side definitions and concrete fixtures used by the
theorems and witnesses below. -/

/-- Per-character translation of the path encoder: an uppercase ASCII
letter becomes the marker and its lower-cased form, everything else
passes through. -/
def encChar (r : Char) : List Char :=
  if 'A' ≤ r ∧ r ≤ 'Z' then ['!', lowerChar r] else [r]

/-- Concrete archive entry for the C4 witness: one text file, one
binary (PNG header) file. -/
def c4Entry : ZipEntry :=
  ⟨[("hello.go", ⟨"mod@v1.0.0/hello.go", lit "package main\n"⟩),
    ("image.png", ⟨"mod@v1.0.0/image.png", [137, 80, 78, 71, 13, 10, 26, 10, 255, 254]⟩)]⟩

/-- Concrete filesystem for the C4 witness mirror side. -/
def c4FS : FS :=
  { isDir := fun _ => true
    readFile := fun p =>
      if p = "/mc/mod@v1.0.0/image.png" then
        some [137, 80, 78, 71, 13, 10, 26, 10, 255, 254]
      else none
    walk := fun _ => .ok [] }

/-- Fixed single-record parser used by the C7 witness. -/
def c7Parse : Bytes → Option (List ZipRec) := fun d =>
  if d = lit "Z1" then some [⟨"mod@v1.0.0/go.mod", lit "module mod\n"⟩]
  else if d = lit "Z2" then some [⟨"mod@v2.0.0/go.mod", lit "module mod\n"⟩]
  else none

/-- First entry of the C7 witness scenario. -/
def c7E1 : ZipEntry := ⟨[("go.mod", ⟨"mod@v1.0.0/go.mod", lit "module mod\n"⟩)]⟩

/-- Second entry of the C7 witness scenario. -/
def c7E2 : ZipEntry := ⟨[("go.mod", ⟨"mod@v2.0.0/go.mod", lit "module mod\n"⟩)]⟩

/-- Cache state after the first C7 witness put. -/
def c7C1 : ZipCache := ⟨[("mod@v1.0.0", c7E1)]⟩

/-- Cache state after both C7 witness puts. -/
def c7C2 : ZipCache := ⟨[("mod@v1.0.0", c7E1), ("mod@v2.0.0", c7E2)]⟩

/-- Parser fixture for the C6 witness: four records, one of them a
directory marker and one outside the wrapper prefix. -/
def c6Parse : Bytes → Option (List ZipRec) := fun d =>
  if d = lit "Z" then
    some [⟨"mod@v1.0.0/go.mod", lit "module mod\n"⟩,
          ⟨"mod@v1.0.0/cmd/", []⟩,
          ⟨"mod@v1.0.0/cmd/run.go", lit "package cmd\n"⟩,
          ⟨"mod@v1.0.0/lib/util.go", lit "package lib\n"⟩]
  else none

/-- HTTP oracle for the C10 witness: the list endpoint succeeds, every
other URL (in particular the latest endpoint) returns status 500. -/
def c10Http : String → HttpOutcome := fun url =>
  if url = listURL "https://proxy.golang.org" "example.com/mod" then
    .resp 200 (lit "v0.1.0\nv1.0.0\n")
  else .resp 500 []

/-- Filesystem for the C3 witness: no local module cache, a matching
fallback directory. -/
def c3FS : FS :=
  { isDir := fun _ => false
    readFile := fun _ => none
    walk := fun _ => .ok [] }

/-- Filesystem for the C1 counterexample: every directory exists, but
no file is readable (so the mirror's `go.mod` read fails). -/
def c1CexFS : FS :=
  { isDir := fun _ => true
    readFile := fun _ => none
    walk := fun _ => .ok [] }

/-- HTTP oracle for the C1 counterexample: every URL answers 200. -/
def c1CexHttp : String → HttpOutcome := fun _ =>
  .resp 200 (lit "module example.com/mod\n")

/-- Filesystem for the C1 witness: a populated mirror for
`example.com/mod@v1.0.0` with a readable `go.mod` and one source file. -/
def c1FS : FS :=
  { isDir := fun q => q = "/mc/example.com/mod@v1.0.0"
    readFile := fun q =>
      if q = "/mc/example.com/mod@v1.0.0/go.mod" then
        some (lit "module example.com/mod\n")
      else if q = "/mc/example.com/mod@v1.0.0/a.go" then
        some (lit "package a\n")
      else none
    walk := fun _ => .ok ["a.go", "go.mod"] }

/-! Helper lemmas about the string embedding. -/

theorem strExt {a b : String} (h : a.data = b.data) : a = b := by
  cases a
  cases b
  cases h
  rfl

theorem data_append (a b : String) : (a ++ b).data = a.data ++ b.data := by
  cases a
  cases b
  rfl

theorem data_push (s : String) (c : Char) : (s.push c).data = s.data ++ [c] := rfl

theorem str_append_left_cancel {s t u : String} (h : s ++ t = s ++ u) : t = u := by
  have hd := congrArg String.data h
  rw [data_append, data_append] at hd
  exact strExt (List.append_cancel_left hd)

theorem hasPrefB_empty (s : String) : hasPrefB s "" = true := by
  show ([] : List Char).isPrefixOf s.data = true
  cases s.data <;> rfl

/-! Claim C8: character-level behaviour of the path encoder. -/

theorem encodePath_data_aux (l : List Char) (b : String) :
    (l.foldl
        (fun b r =>
          if 'A' ≤ r ∧ r ≤ 'Z' then (b.push '!').push (lowerChar r)
          else b.push r) b).data
      = b.data ++ l.flatMap encChar := by
  induction l generalizing b with
  | nil => simp
  | cons c cs ih =>
    by_cases h : 'A' ≤ c ∧ c ≤ 'Z'
    · simp [List.foldl_cons, h, ih, encChar, data_push, List.append_assoc]
    · simp [List.foldl_cons, h, ih, encChar, data_push, List.append_assoc]

/-- C8: the path encoder scans characters left to right, replacing each
uppercase ASCII letter by the `!` marker followed by its lower-cased
form while every other character passes through unchanged; in
particular `"ALL"` encodes to three escape pairs, and encoding is the
identity (hence idempotent) on inputs with no uppercase letter. -/
theorem C8_encodePath_spec :
    encodePath "ALL" = "!a!l!l"
    ∧ (∀ s : String, (encodePath s).data = s.data.flatMap encChar)
    ∧ (∀ s : String, (∀ c ∈ s.data, ¬('A' ≤ c ∧ c ≤ 'Z')) → encodePath s = s) := by
  have hchar : ∀ s : String, (encodePath s).data = s.data.flatMap encChar := by
    intro s
    show (s.data.foldl _ "").data = _
    rw [encodePath_data_aux]
    rfl
  refine ⟨by decide, hchar, ?_⟩
  intro s hs
  apply strExt
  rw [hchar]
  have : ∀ c ∈ s.data, encChar c = [c] := by
    intro c hc
    simp [encChar, hs c hc]
  calc s.data.flatMap encChar = s.data.flatMap (fun c => [c]) := by
        apply List.flatMap_congr
        intro c hc
        exact this c hc
    _ = s.data := by simp

/-- Witness for C8: a concrete uppercase-free module path is fixed by
the encoder. -/
theorem C8_encodePath_spec_witness :
    (∀ c ∈ "golang.org/x/tools".data, ¬('A' ≤ c ∧ c ≤ 'Z'))
    ∧ encodePath "golang.org/x/tools" = "golang.org/x/tools" :=
  ⟨by decide, C8_encodePath_spec.2.2 "golang.org/x/tools" (by decide)⟩

/-! Claim C2: HTTP status classification of the registry client. -/

/-- C2: statuses 404 and 410 are normalized to the single not-found
sentinel; every other non-200 status yields the generic status error,
which is not the sentinel; and a 200 response never produces the
sentinel or a status error. -/
theorem C2_status_classification (url : String) (status : Nat) (body : Bytes) :
    ((status = 404 ∨ status = 410) →
      get url (.resp status body) = .error .modNotFound)
    ∧ (¬(status = 404 ∨ status = 410) → status ≠ 200 →
      get url (.resp status body) = .error (.unexpectedStatus status url)
        ∧ isNotFoundErr (.unexpectedStatus status url) = false)
    ∧ (∀ e, get url (.resp 200 body) = .error e →
      isNotFoundErr e = false ∧ ∀ s u, e ≠ .unexpectedStatus s u) := by
  refine ⟨?_, ?_, ?_⟩
  · intro h
    simp [get, h]
  · intro h1 h2
    simp [get, h1, h2, isNotFoundErr]
  · intro e he
    simp only [get] at he
    rw [if_neg (by decide), if_neg (by decide)] at he
    split at he
    · cases he
      exact ⟨rfl, by intro s u hh; cases hh⟩
    · cases he

/-- Witness for C2: concrete statuses 404, 410, 500 and 200. -/
theorem C2_status_classification_witness :
    get "u" (.resp 404 []) = .error .modNotFound
    ∧ get "u" (.resp 410 []) = .error .modNotFound
    ∧ (get "u" (.resp 500 []) = .error (.unexpectedStatus 500 "u")
        ∧ isNotFoundErr (.unexpectedStatus 500 "u") = false)
    ∧ (isNotFoundErr .tooLarge = false ∧ ∀ s u, GoErr.tooLarge ≠ .unexpectedStatus s u) :=
  ⟨(C2_status_classification "u" 404 []).1 (Or.inl rfl),
   (C2_status_classification "u" 410 []).1 (Or.inr rfl),
   (C2_status_classification "u" 500 []).2.1 (by decide) (by decide),
   (C2_status_classification "u" 200 (List.replicate (maxZipSize + 1) 0)).2.2
     .tooLarge
     (by
       have h : maxZipSize < (List.replicate (maxZipSize + 1) (0 : Nat)).length := by
         rw [List.length_replicate]
         omega
       have hl : (List.replicate (maxZipSize + 1) (0 : Nat)).take (maxZipSize + 1)
           = List.replicate (maxZipSize + 1) (0 : Nat) :=
         List.take_of_length_le (by rw [List.length_replicate])
       simp only [get]
       rw [if_neg (by decide), if_neg (by decide), hl,
         if_pos (by rw [List.length_replicate]; omega)])⟩

/-! Claim C9: the response-size ceiling. -/

/-- C9: a 200 response whose body exceeds `maxZipSize` fails with the
too-large error rather than being truncated, and a body of at most the
ceiling is returned in full. -/
theorem C9_size_cap (url : String) (body : Bytes) :
    (maxZipSize < body.length → get url (.resp 200 body) = .error .tooLarge)
    ∧ (body.length ≤ maxZipSize → get url (.resp 200 body) = .ok body) := by
  constructor
  · intro h
    have hlen : (body.take (maxZipSize + 1)).length = maxZipSize + 1 := by
      rw [List.length_take]
      omega
    simp only [get]
    rw [if_neg (by decide), if_neg (by decide), if_pos (by omega)]
  · intro h
    have ht : body.take (maxZipSize + 1) = body :=
      List.take_of_length_le (by omega)
    simp only [get]
    rw [if_neg (by decide), if_neg (by decide), ht, if_neg (by omega)]

/-- Witness for C9: an oversized body is rejected, a small one returned
in full. -/
theorem C9_size_cap_witness :
    get "u" (.resp 200 (List.replicate (maxZipSize + 1) 0)) = .error .tooLarge
    ∧ get "u" (.resp 200 (lit "v1.0.0\n")) = .ok (lit "v1.0.0\n") :=
  ⟨(C9_size_cap "u" (List.replicate (maxZipSize + 1) 0)).1
      (by rw [List.length_replicate]; omega),
   (C9_size_cap "u" (lit "v1.0.0\n")).2
      (by show 7 ≤ maxZipSize; rw [show maxZipSize = 104857600 from rfl]; omega)⟩

/-! Claim C4: the text-validity gate of both read paths. -/

/-- C4: `ZipEntry.ReadFile` returns the exact byte content of an
indexed text file, fails with the not-found-in-archive condition when
the path is absent, and fails with the binary-content condition without
returning bytes when the content is not valid UTF-8; `ModCache.ReadFile`
applies the identical gate with the same condition kind. -/
theorem C4_read_file_gate (e : ZipEntry) (p : String) (mc : ModCache) (fs : FS)
    (module version q : String) :
    (alookup p e.files = none →
      ZipEntry.readFile e p = .error (.notFoundInArchive p))
    ∧ (∀ f, alookup p e.files = some f →
      (utf8Valid f.content = true → ZipEntry.readFile e p = .ok f.content)
        ∧ (utf8Valid f.content = false →
            ZipEntry.readFile e p = .error (.binaryFile p)))
    ∧ (∀ data, fs.readFile (mc.modDir module version ++ "/" ++ q) = some data →
      (utf8Valid data = true → ModCache.readFile mc fs module version q = .ok data)
        ∧ (utf8Valid data = false →
            ModCache.readFile mc fs module version q = .error (.binaryFile q))) := by
  refine ⟨?_, ?_, ?_⟩
  · intro h
    simp [ZipEntry.readFile, h]
  · intro f hf
    constructor <;> intro hu <;> simp [ZipEntry.readFile, hf, hu]
  · intro data hd
    constructor <;> intro hu <;> simp [ModCache.readFile, hd, hu]

/-- Witness for C4: the text file round-trips, the PNG is rejected as
binary on both paths with the same condition kind, a missing path is
not-found. -/
theorem C4_read_file_gate_witness :
    ZipEntry.readFile c4Entry "hello.go" = .ok (lit "package main\n")
    ∧ ZipEntry.readFile c4Entry "image.png" = .error (.binaryFile "image.png")
    ∧ ZipEntry.readFile c4Entry "missing.go" = .error (.notFoundInArchive "missing.go")
    ∧ ModCache.readFile ⟨"/mc"⟩ c4FS "mod" "v1.0.0" "image.png"
        = .error (.binaryFile "image.png") :=
  ⟨((C4_read_file_gate c4Entry "hello.go" ⟨"/mc"⟩ c4FS "mod" "v1.0.0" "x").2.1
      ⟨"mod@v1.0.0/hello.go", lit "package main\n"⟩ (by decide)).1 (by decide),
   ((C4_read_file_gate c4Entry "image.png" ⟨"/mc"⟩ c4FS "mod" "v1.0.0" "x").2.1
      ⟨"mod@v1.0.0/image.png", [137, 80, 78, 71, 13, 10, 26, 10, 255, 254]⟩
      (by decide)).2 (by decide),
   (C4_read_file_gate c4Entry "missing.go" ⟨"/mc"⟩ c4FS "mod" "v1.0.0" "x").1 (by decide),
   ((C4_read_file_gate c4Entry "p" ⟨"/mc"⟩ c4FS "mod" "v1.0.0" "image.png").2.2
      [137, 80, 78, 71, 13, 10, 26, 10, 255, 254] (by decide)).2 (by decide)⟩

/-! Claim C5: corrupt archives are rejected and store nothing. -/

/-- C5: when the raw bytes fail to parse as a zip container, `Put`
returns the corrupt-archive error and leaves the cache table unchanged,
so a subsequent `Get` on that key still reports absent. -/
theorem C5_corrupt_put (parse : Bytes → Option (List ZipRec)) (c : ZipCache)
    (module version : String) (data : Bytes) (hp : parse data = none) :
    ZipCache.put parse c module version data
      = (.error (.wrapped "parse zip" .zipFormat), c)
    ∧ (ZipCache.get c module version = none →
      ZipCache.get (ZipCache.put parse c module version data).2 module version = none) := by
  constructor
  · simp [ZipCache.put, hp]
  · intro h
    simp [ZipCache.put, hp, h]

/-- Witness for C5: a parser rejecting a concrete non-zip byte string
leaves the empty cache unchanged and absent. -/
theorem C5_corrupt_put_witness :
    ZipCache.put (fun _ => none) ZipCache.empty "mod" "v1.0.0" (lit "not a zip file")
      = (.error (.wrapped "parse zip" .zipFormat), ZipCache.empty)
    ∧ ZipCache.get
        (ZipCache.put (fun _ => none) ZipCache.empty "mod" "v1.0.0" (lit "not a zip file")).2
        "mod" "v1.0.0" = none :=
  ⟨(C5_corrupt_put (fun _ => none) ZipCache.empty "mod" "v1.0.0" (lit "not a zip file") rfl).1,
   (C5_corrupt_put (fun _ => none) ZipCache.empty "mod" "v1.0.0" (lit "not a zip file") rfl).2 rfl⟩

/-! Helper lemmas about the Go-map model. -/

theorem alookup_ainsert_self (k : String) (v : α) (xs : List (String × α)) :
    alookup k (ainsert k v xs) = some v := by
  induction xs with
  | nil => simp [ainsert, alookup]
  | cons hd t ih =>
    obtain ⟨k1, v1⟩ := hd
    by_cases hk : k = k1
    · simp [ainsert, hk, alookup]
    · simp [ainsert, hk, alookup, ih]

theorem alookup_ainsert_ne {k k1 : String} (hk : k ≠ k1) (v : α)
    (xs : List (String × α)) :
    alookup k (ainsert k1 v xs) = alookup k xs := by
  induction xs with
  | nil => simp [ainsert, alookup, hk]
  | cons hd t ih =>
    obtain ⟨k2, v2⟩ := hd
    by_cases h2 : k1 = k2
    · subst h2
      simp [ainsert, alookup, hk]
    · by_cases h3 : k = k2
      · simp [ainsert, h2, alookup, h3]
      · simp [ainsert, h2, alookup, h3, ih]

theorem mem_keys_ainsert (k k1 : String) (v : α) (xs : List (String × α)) :
    k ∈ (ainsert k1 v xs).map Prod.fst ↔ k = k1 ∨ k ∈ xs.map Prod.fst := by
  induction xs with
  | nil => simp [ainsert]
  | cons hd t ih =>
    obtain ⟨k2, v2⟩ := hd
    by_cases h2 : k1 = k2
    · subst h2
      simp only [ainsert, if_true, List.map_cons, List.mem_cons]
      tauto
    · simp only [ainsert, if_neg h2, List.map_cons, List.mem_cons, ih]
      tauto

/-! Claim C7: cache-table algebra of Put and Get. -/

/-- C7: a successful `Put` followed by `Get` on the same key returns
the very entry `Put` returned; `Get` on the empty (never-stored) table
is absent, and `Put` does not disturb other keys; two different
versions of the same module occupy distinct keys, so consecutive `Put`s
for them do not overwrite each other. -/
theorem C7_put_get_algebra (parse : Bytes → Option (List ZipRec)) (c : ZipCache)
    (module version v1 v2 : String) (data d1 d2 : Bytes) :
    (∀ entry zc1, ZipCache.put parse c module version data = (.ok entry, zc1) →
      ZipCache.get zc1 module version = some entry)
    ∧ ZipCache.get ZipCache.empty module version = none
    ∧ (v1 ≠ v2 → ∀ e1 c1 e2 c2,
      ZipCache.put parse c module v1 d1 = (.ok e1, c1) →
      ZipCache.put parse c1 module v2 d2 = (.ok e2, c2) →
      ZipCache.get c2 module v1 = some e1 ∧ ZipCache.get c2 module v2 = some e2) := by
  have hkey : ∀ w1 w2 : String, w1 ≠ w2 →
      module ++ "@" ++ w1 ≠ module ++ "@" ++ w2 := by
    intro w1 w2 hw h
    exact hw (str_append_left_cancel h)
  have hput : ∀ (zc : ZipCache) (w : String) (d : Bytes) (entry : ZipEntry)
      (zc1 : ZipCache), ZipCache.put parse zc module w d = (.ok entry, zc1) →
      zc1.entries = ainsert (module ++ "@" ++ w) entry zc.entries := by
    intro zc w d entry zc1 h
    cases hp : parse d with
    | none => simp [ZipCache.put, hp] at h
    | some recs =>
      simp only [ZipCache.put, hp] at h
      rw [Prod.ext_iff] at h
      obtain ⟨h1, h2⟩ := h
      simp only at h1 h2
      injection h1 with h1
      subst h1
      subst h2
      rfl
  refine ⟨?_, rfl, ?_⟩
  · intro entry zc1 h
    have := hput c version data entry zc1 h
    simp [ZipCache.get, this, alookup_ainsert_self]
  · intro hv e1 c1 e2 c2 h1 h2
    have hc1 := hput c v1 d1 e1 c1 h1
    have hc2 := hput c1 v2 d2 e2 c2 h2
    constructor
    · simp only [ZipCache.get, hc2, hc1]
      rw [alookup_ainsert_ne (hkey v1 v2 hv), alookup_ainsert_self]
    · simp [ZipCache.get, hc2, alookup_ainsert_self]

/-- Witness for C7 at concrete data: put-then-get round-trips, the
empty cache is absent, and two versions of one module coexist. -/
theorem C7_put_get_algebra_witness :
    ZipCache.get (ZipCache.put c7Parse ZipCache.empty "mod" "v1.0.0" (lit "Z1")).2
        "mod" "v1.0.0" = some c7E1
    ∧ ZipCache.get ZipCache.empty "mod" "v1.0.0" = none
    ∧ (ZipCache.get c7C2 "mod" "v1.0.0" = some c7E1
        ∧ ZipCache.get c7C2 "mod" "v2.0.0" = some c7E2) := by
  have base := C7_put_get_algebra c7Parse ZipCache.empty "mod" "x" "v1.0.0" "v2.0.0"
    [] (lit "Z1") (lit "Z2")
  have hput1 : ZipCache.put c7Parse ZipCache.empty "mod" "v1.0.0" (lit "Z1")
      = (.ok c7E1, c7C1) := by decide
  have hput2 : ZipCache.put c7Parse c7C1 "mod" "v2.0.0" (lit "Z2")
      = (.ok c7E2, c7C2) := by decide
  refine ⟨?_, base.2.1, ?_⟩
  · rw [hput1]
    exact (C7_put_get_algebra c7Parse ZipCache.empty "mod" "v1.0.0" "a" "b"
      (lit "Z1") [] []).1 c7E1 c7C1 hput1
  · exact base.2.2 (by decide) c7E1 c7C1 c7E2 c7C2 hput1 hput2

/-! Claim C6: the index built by Put and its ListFiles view. -/

theorem mem_keys_putStep_foldl (pfx : String) (recs : List ZipRec)
    (acc : List (String × ZipRec)) (name : String) :
    name ∈ (recs.foldl (putStep pfx) acc).map Prod.fst
      ↔ name ∈ acc.map Prod.fst
        ∨ ∃ r ∈ recs, trimPrefB r.name pfx = name
            ∧ (trimPrefB r.name pfx = "" || hasSuffB (trimPrefB r.name pfx) "/") = false := by
  induction recs generalizing acc with
  | nil => simp
  | cons r rs ih =>
    simp only [List.foldl_cons]
    cases hc : (decide (trimPrefB r.name pfx = "") || hasSuffB (trimPrefB r.name pfx) "/") with
    | true =>
      have hstep : putStep pfx acc r = acc := by
        simp only [putStep]
        rw [if_pos hc]
      rw [hstep, ih]
      constructor
      · rintro (h | ⟨r1, hr1, hp⟩)
        · exact Or.inl h
        · exact Or.inr ⟨r1, List.mem_cons_of_mem _ hr1, hp⟩
      · rintro (h | ⟨r1, hr1, hp⟩)
        · exact Or.inl h
        · rcases List.mem_cons.mp hr1 with h1 | h1
          · subst h1
            simp [hc] at hp
          · exact Or.inr ⟨r1, h1, hp⟩
    | false =>
      have hstep : putStep pfx acc r = ainsert (trimPrefB r.name pfx) r acc := by
        simp only [putStep]
        rw [if_neg (by rw [hc]; simp)]
      rw [hstep, ih, mem_keys_ainsert]
      constructor
      · rintro ((h | h) | ⟨r1, hr1, hp⟩)
        · exact Or.inr ⟨r, List.mem_cons_self r rs, h.symm, hc⟩
        · exact Or.inl h
        · exact Or.inr ⟨r1, List.mem_cons_of_mem _ hr1, hp⟩
      · rintro (h | ⟨r1, hr1, hp⟩)
        · exact Or.inl (Or.inr h)
        · rcases List.mem_cons.mp hr1 with h1 | h1
          · subst h1
            exact Or.inl (Or.inl hp.1.symm)
          · exact Or.inr ⟨r1, h1, hp⟩

/-- C6: after a successful `Put`, the entry's index holds exactly the
stripped names of the container records that are non-empty and are not
directory markers after stripping `module@version/`; `ListFiles("")`
returns exactly that name set and `ListFiles(p)` exactly its subset
with string prefix `p`. -/
theorem C6_index_and_listfiles (parse : Bytes → Option (List ZipRec)) (c : ZipCache)
    (module version : String) (data : Bytes) (recs : List ZipRec)
    (hp : parse data = some recs) :
    ∃ entry zc1, ZipCache.put parse c module version data = (.ok entry, zc1)
    ∧ (∀ name, name ∈ entry.listFiles ""
        ↔ ∃ r ∈ recs,
            trimPrefB r.name (module ++ "@" ++ version ++ "/") = name
            ∧ ¬(name = "" ∨ hasSuffB name "/" = true))
    ∧ (∀ p name, name ∈ entry.listFiles p
        ↔ name ∈ entry.listFiles "" ∧ hasPrefB name p = true) := by
  refine ⟨⟨recs.foldl (putStep (module ++ "@" ++ version ++ "/")) []⟩,
    ⟨ainsert (module ++ "@" ++ version)
      ⟨recs.foldl (putStep (module ++ "@" ++ version ++ "/")) []⟩ c.entries⟩,
    by simp only [ZipCache.put, hp], ?_, ?_⟩
  · intro name
    have hkeys := mem_keys_putStep_foldl (module ++ "@" ++ version ++ "/") recs [] name
    simp only [List.map_nil, List.mem_nil_iff, false_or] at hkeys
    have hfil : name ∈ ZipEntry.listFiles ⟨recs.foldl (putStep (module ++ "@" ++ version ++ "/")) []⟩ ""
        ↔ name ∈ (recs.foldl (putStep (module ++ "@" ++ version ++ "/")) []).map Prod.fst := by
      simp [ZipEntry.listFiles, List.mem_filter]
    rw [hfil, hkeys]
    constructor
    · rintro ⟨r, hr, heq, hcond⟩
      refine ⟨r, hr, heq, ?_⟩
      rw [heq] at hcond
      simp only [Bool.or_eq_false_iff, decide_eq_false_iff_not] at hcond
      rintro (h1 | h2)
      · exact hcond.1 h1
      · rw [hcond.2] at h2
        cases h2
    · rintro ⟨r, hr, heq, hcond⟩
      refine ⟨r, hr, heq, ?_⟩
      rw [heq]
      simp only [Bool.or_eq_false_iff, decide_eq_false_iff_not]
      exact ⟨fun h1 => hcond (Or.inl h1), by
        cases h2 : hasSuffB name "/" with
        | false => rfl
        | true => exact absurd (Or.inr h2) hcond⟩
  · intro p name
    simp only [ZipEntry.listFiles, List.mem_filter]
    constructor
    · rintro ⟨hmem, hcond⟩
      rcases Bool.or_eq_true_iff.mp hcond with h1 | h1
      · have hpe : p = "" := by simpa using h1
        subst hpe
        exact ⟨⟨hmem, by simp⟩, hasPrefB_empty name⟩
      · exact ⟨⟨hmem, by simp [hasPrefB_empty]⟩, h1⟩
    · rintro ⟨⟨hmem, _⟩, hpref⟩
      exact ⟨hmem, by simp [hpref]⟩

/-- Witness for C6: concrete membership checks on the built index. -/
theorem C6_index_and_listfiles_witness :
    ∃ entry zc1, ZipCache.put c6Parse ZipCache.empty "mod" "v1.0.0" (lit "Z")
      = (.ok entry, zc1)
    ∧ ("go.mod" ∈ entry.listFiles "" ∧ "cmd/run.go" ∈ entry.listFiles ""
        ∧ "cmd/" ∉ entry.listFiles "")
    ∧ ("cmd/run.go" ∈ entry.listFiles "cmd/" ∧ "go.mod" ∉ entry.listFiles "cmd/") := by
  obtain ⟨entry, zc1, hput, hall, hpref⟩ :=
    C6_index_and_listfiles c6Parse ZipCache.empty "mod" "v1.0.0" (lit "Z") _ rfl
  refine ⟨entry, zc1, hput, ⟨?_, ?_, ?_⟩, ?_, ?_⟩
  · exact (hall "go.mod").mpr
      ⟨⟨"mod@v1.0.0/go.mod", lit "module mod\n"⟩, by decide, by decide, by decide⟩
  · exact (hall "cmd/run.go").mpr
      ⟨⟨"mod@v1.0.0/cmd/run.go", lit "package cmd\n"⟩, by decide, by decide, by decide⟩
  · intro hmem
    obtain ⟨r, hr, heq, hcond⟩ := (hall "cmd/").mp hmem
    exact hcond (Or.inr (by decide))
  · exact (hpref "cmd/" "cmd/run.go").mpr
      ⟨(hall "cmd/run.go").mpr
        ⟨⟨"mod@v1.0.0/cmd/run.go", lit "package cmd\n"⟩, by decide, by decide, by decide⟩,
       by decide⟩
  · intro hmem
    exact absurd ((hpref "cmd/" "go.mod").mp hmem).2 (by decide)

/-! Helper lemmas about the resolver and the fallback text. -/

theorem resolveVersion_concrete (http : String → HttpOutcome) (base module version : String)
    (hv : goEqualFold version "latest" = false) :
    resolveVersion http base module version = (.ok version, []) := by
  simp [resolveVersion, hv]

theorem suggestBody_ne_empty (localBase module : String) :
    suggestBody localBase module ≠ "" := by
  intro h
  have hd := congrArg String.data h
  simp only [suggestBody, data_append, List.append_eq_nil] at hd
  exact absurd hd.1.1.1.1 (by decide)

theorem notFoundResult_suggestion (isDirF : String → Bool) (localBase module : String)
    (h : isDirF (localBase ++ "/" ++ lastPathSegment module) = true) :
    notFoundResult isDirF localBase module
      = textResult (lit (suggestBody localBase module)) := by
  simp only [notFoundResult, suggest, h, if_true]
  rw [if_pos (suggestBody_ne_empty localBase module)]

theorem notFoundResult_plain (isDirF : String → Bool) (localBase module : String)
    (h : isDirF (localBase ++ "/" ++ lastPathSegment module) = false) :
    notFoundResult isDirF localBase module
      = errorResult (lit ("Module \"" ++ module ++ "\" not found on the Go module proxy.")) := by
  simp [notFoundResult, suggest, h]

/-! Claim C10: the latest-metadata error is discarded. -/

/-- C10: when the version-list fetch succeeds and the separate
latest-metadata fetch fails, `handleListVersions` still succeeds, the
latest error is never surfaced, and the output is exactly the versions
block with the `Latest info` section omitted. -/
theorem C10_latest_error_discarded (http : String → HttpOutcome)
    (base : String) (isDirF : String → Bool) (localBase module : String)
    (body : Bytes) (e : GoErr)
    (hl : get (listURL base module) (http (listURL base module)) = .ok body)
    (he : get (latestURL base module) (http (latestURL base module)) = .error e) :
    handleListVersions http base isDirF localBase module
      = ⟨.ok (textResult (listVersionsBody module (parseVersions body) [])),
         [.net (listURL base module), .net (latestURL base module)]⟩
    ∧ listVersionsBody module (parseVersions body) []
      = lit "Versions of " ++ lit module ++ lit ":\n"
        ++ (parseVersions body).flatMap (fun v0 => v0 ++ [10]) := by
  constructor
  · simp only [handleListVersions, hl, he]
  · simp [listVersionsBody]

/-- Witness for C10 at a concrete oracle. -/
theorem C10_latest_error_discarded_witness :
    handleListVersions c10Http "https://proxy.golang.org" (fun _ => false) "/p"
        "example.com/mod"
      = ⟨.ok (textResult (listVersionsBody "example.com/mod"
            (parseVersions (lit "v0.1.0\nv1.0.0\n")) [])),
         [.net (listURL "https://proxy.golang.org" "example.com/mod"),
          .net (latestURL "https://proxy.golang.org" "example.com/mod")]⟩ :=
  (C10_latest_error_discarded c10Http "https://proxy.golang.org" (fun _ => false) "/p"
    "example.com/mod" (lit "v0.1.0\nv1.0.0\n")
    (.unexpectedStatus 500 (latestURL "https://proxy.golang.org" "example.com/mod"))
    (by decide) (by decide)).1

/-! Claim C3: the not-found fallback asymmetry of the handlers. -/

/-- C3: only the version-listing handler substitutes the fallback
suggester's answer on a registry not-found signal (a suggestion when a
matching local directory exists, an explicit not-found failure
otherwise); the read-manifest, list-files and read-file handlers return
an error that still tests as the not-found kind, never a fallback
suggestion. -/
theorem C3_not_found_asymmetry (http : String → HttpOutcome) (base : String)
    (parse : Bytes → Option (List ZipRec)) (fs : FS) (mc : ModCache) (zc : ZipCache)
    (isDirF : String → Bool) (localBase module version p path : String)
    (body : Bytes)
    (hv : goEqualFold version "latest" = false) :
    ((http (listURL base module) = .resp 404 body →
        (handleListVersions http base isDirF localBase module).result
          = .ok (notFoundResult isDirF localBase module))
      ∧ (isDirF (localBase ++ "/" ++ lastPathSegment module) = true →
          notFoundResult isDirF localBase module
            = textResult (lit (suggestBody localBase module)))
      ∧ (isDirF (localBase ++ "/" ++ lastPathSegment module) = false →
          notFoundResult isDirF localBase module
            = errorResult (lit ("Module \"" ++ module ++ "\" not found on the Go module proxy."))))
    ∧ (ModCache.hasModule mc fs module version = false →
        http (modURL base module version) = .resp 404 body →
        (handleReadMod http base fs mc module version).result = .error .modNotFound
          ∧ isNotFoundErr .modNotFound = true)
    ∧ (ModCache.hasModule mc fs module version = false →
        ZipCache.get zc module version = none →
        http (zipURL base module version) = .resp 404 body →
        (handleListFiles http base parse fs mc zc module version p).result
            = .error (.wrapped "download zip" .modNotFound)
          ∧ isNotFoundErr (.wrapped "download zip" .modNotFound) = true)
    ∧ (ModCache.hasModule mc fs module version = false →
        ZipCache.get zc module version = none →
        http (zipURL base module version) = .resp 404 body →
        (handleReadFile http base parse fs mc zc module version path).result
            = .error (.wrapped "download zip" .modNotFound)
          ∧ isNotFoundErr (.wrapped "download zip" .modNotFound) = true) := by
  have hr := resolveVersion_concrete http base module version hv
  refine ⟨⟨?_, notFoundResult_suggestion isDirF localBase module,
    notFoundResult_plain isDirF localBase module⟩, ?_, ?_, ?_⟩
  · intro hlist
    have h404 : get (listURL base module) (http (listURL base module))
        = .error .modNotFound := by
      rw [hlist]
      simp [get]
    simp only [handleListVersions, h404, isNotFoundErr, if_true]
  · intro hm h404
    have hmod : get (modURL base module version) (http (modURL base module version))
        = .error .modNotFound := by
      rw [h404]
      simp [get]
    refine ⟨?_, rfl⟩
    simp only [handleReadMod, hr, hm, hmod, Bool.false_eq_true, if_false]
  · intro hm hzc h404
    have hzip : get (zipURL base module version) (http (zipURL base module version))
        = .error .modNotFound := by
      rw [h404]
      simp [get]
    refine ⟨?_, rfl⟩
    simp only [handleListFiles, hr, hm, Bool.false_eq_true, if_false,
      getOrDownload, hzc, hzip]
  · intro hm hzc h404
    have hzip : get (zipURL base module version) (http (zipURL base module version))
        = .error .modNotFound := by
      rw [h404]
      simp [get]
    refine ⟨?_, rfl⟩
    simp only [handleReadFile, hr, hm, Bool.false_eq_true, if_false,
      getOrDownload, hzc, hzip]

/-- Witness for C3 at a concrete all-404 oracle and empty cache. -/
theorem C3_not_found_asymmetry_witness :
    ((handleListVersions (fun _ => .resp 404 []) "B" (fun _ => true) "/p"
        "example.com/mod").result
      = .ok (notFoundResult (fun _ => true) "/p" "example.com/mod"))
    ∧ ((handleReadMod (fun _ => .resp 404 []) "B" c3FS ⟨"/mc"⟩
        "example.com/mod" "v1.0.0").result = .error .modNotFound)
    ∧ ((handleReadFile (fun _ => .resp 404 []) "B" (fun _ => none) c3FS ⟨"/mc"⟩
        ZipCache.empty "example.com/mod" "v1.0.0" "go.mod").result
      = .error (.wrapped "download zip" .modNotFound)) := by
  have base := C3_not_found_asymmetry (fun _ => .resp 404 []) "B" (fun _ => none)
    c3FS ⟨"/mc"⟩ ZipCache.empty (fun _ => true) "/p" "example.com/mod" "v1.0.0"
    "" "go.mod" [] (by decide)
  exact ⟨base.1.1 rfl, (base.2.1 (by decide) rfl).1, (base.2.2.2 (by decide) rfl rfl).1⟩

/-! Claim C1: local-mirror calls and the network / in-memory cache. -/

/-- Counterexample to C1 as stated: for the read-manifest operation on
a pair the local mirror reports present, the handler still issues a
network request when the local `go.mod` read fails, because
`handleReadMod` falls back to `ProxyClient.ReadMod`. -/
theorem C1_counterexample :
    ModCache.hasModule ⟨"/cache"⟩ c1CexFS "example.com/mod" "v1.0.0" = true
    ∧ (handleReadMod c1CexHttp "https://proxy.golang.org" c1CexFS ⟨"/cache"⟩
        "example.com/mod" "v1.0.0").events
      = [.net "https://proxy.golang.org/example.com/mod/@v/v1.0.0.mod"] := by
  constructor
  · decide
  · decide

/-- C1 as amended: for a concrete (non-`"latest"`) version that the
local mirror reports present, the list-files and read-file operations
perform no network request and no in-memory-cache access, leave the
cache unchanged, and serve their result from the mirror; read-manifest
does the same provided its local `go.mod` read succeeds. -/
theorem C1_local_mirror_no_network (http : String → HttpOutcome) (base : String)
    (parse : Bytes → Option (List ZipRec)) (fs : FS) (mc : ModCache) (zc : ZipCache)
    (module version p path : String)
    (hv : goEqualFold version "latest" = false)
    (hm : ModCache.hasModule mc fs module version = true) :
    ((handleListFiles http base parse fs mc zc module version p).events = []
      ∧ (handleListFiles http base parse fs mc zc module version p).cache = zc
      ∧ (handleListFiles http base parse fs mc zc module version p).result
          = (ModCache.listFiles mc fs module version p).map
              (fun files => textResult (listFilesBody module version p (sortStrings files))))
    ∧ ((handleReadFile http base parse fs mc zc module version path).events = []
      ∧ (handleReadFile http base parse fs mc zc module version path).cache = zc
      ∧ (handleReadFile http base parse fs mc zc module version path).result
          = (ModCache.readFile mc fs module version path).map textResult)
    ∧ (∀ content, ModCache.readFile mc fs module version "go.mod" = .ok content →
        (handleReadMod http base fs mc module version).events = []
          ∧ (handleReadMod http base fs mc module version).result
              = .ok (textResult content)) := by
  have hr := resolveVersion_concrete http base module version hv
  refine ⟨?_, ?_, ?_⟩
  · simp only [handleListFiles, hr, hm, if_true]
    cases hl : ModCache.listFiles mc fs module version p <;>
      simp [hl, Except.map]
  · simp only [handleReadFile, hr, hm, if_true]
    cases hl : ModCache.readFile mc fs module version path <;>
      simp [hl, Except.map]
  · intro content hc
    simp [handleReadMod, hr, hm, hc]

/-- Witness for the amended C1 at a concrete populated mirror. -/
theorem C1_local_mirror_no_network_witness :
    goEqualFold "v1.0.0" "latest" = false
    ∧ ModCache.hasModule ⟨"/mc"⟩ c1FS "example.com/mod" "v1.0.0" = true
    ∧ (((handleListFiles (fun _ => .resp 404 []) "B" (fun _ => none) c1FS ⟨"/mc"⟩
          ZipCache.empty "example.com/mod" "v1.0.0" "").events = []
        ∧ (handleListFiles (fun _ => .resp 404 []) "B" (fun _ => none) c1FS ⟨"/mc"⟩
            ZipCache.empty "example.com/mod" "v1.0.0" "").cache = ZipCache.empty
        ∧ (handleListFiles (fun _ => .resp 404 []) "B" (fun _ => none) c1FS ⟨"/mc"⟩
            ZipCache.empty "example.com/mod" "v1.0.0" "").result
          = (ModCache.listFiles ⟨"/mc"⟩ c1FS "example.com/mod" "v1.0.0" "").map
              (fun files => textResult
                (listFilesBody "example.com/mod" "v1.0.0" "" (sortStrings files))))
      ∧ ((handleReadFile (fun _ => .resp 404 []) "B" (fun _ => none) c1FS ⟨"/mc"⟩
            ZipCache.empty "example.com/mod" "v1.0.0" "a.go").events = []
        ∧ (handleReadFile (fun _ => .resp 404 []) "B" (fun _ => none) c1FS ⟨"/mc"⟩
            ZipCache.empty "example.com/mod" "v1.0.0" "a.go").cache = ZipCache.empty
        ∧ (handleReadFile (fun _ => .resp 404 []) "B" (fun _ => none) c1FS ⟨"/mc"⟩
            ZipCache.empty "example.com/mod" "v1.0.0" "a.go").result
          = (ModCache.readFile ⟨"/mc"⟩ c1FS "example.com/mod" "v1.0.0" "a.go").map
              textResult)
      ∧ (∀ content,
          ModCache.readFile ⟨"/mc"⟩ c1FS "example.com/mod" "v1.0.0" "go.mod"
            = .ok content →
          (handleReadMod (fun _ => .resp 404 []) "B" c1FS ⟨"/mc"⟩
              "example.com/mod" "v1.0.0").events = []
            ∧ (handleReadMod (fun _ => .resp 404 []) "B" c1FS ⟨"/mc"⟩
                "example.com/mod" "v1.0.0").result = .ok (textResult content))) :=
  ⟨by decide, by decide,
   C1_local_mirror_no_network (fun _ => .resp 404 []) "B" (fun _ => none) c1FS ⟨"/mc"⟩
     ZipCache.empty "example.com/mod" "v1.0.0" "" "a.go" (by decide) (by decide)⟩

end GoMod
